import Mathlib

/-!
Verification of the WebIDL value-coercion layer (`src/js/internal/webidl.js`).

The JavaScript source is shallowly embedded: JS numbers reaching `convertToInt`
are modelled by `JSNum` (NaN, the two infinities, or a finite rational), dynamic
values by `JSVal`, option records by `ConvOpts`, and thrown errors by
`Except.error` carrying a `CoercionError`.  Finite doubles are modelled as
rationals: every arithmetic operation the module performs on them (truncation,
`%`, min/max, comparison, subtraction of an in-range power of two) is exact in
IEEE double arithmetic on the values involved, so the rational model computes
the same results.  Negative zero is identified with `+0`: `convertToInt`
normalizes `-0` to `+0` in its step 5 before any branching, and `evenRound` and
`modulo` normalize their own `-0` results, so the identification is
observation-preserving for the functions modelled here.
-/

namespace Webidl

/-- A JavaScript number as classified by `convertToInt` after `ToNumber`:
NaN, `+Infinity`, `-Infinity`, or a finite value (modelled as a rational;
negative zero is identified with `+0`, see the module docstring). -/
inductive JSNum where
  | nan
  | posInf
  | negInf
  | num (q : ℚ)
deriving DecidableEq

/-- `NumberIsNaN` from the primordials. -/
def JSNum.isNaN : JSNum → Bool
  | .nan => true
  | _ => false

/-- Truncation toward zero (`Math.trunc` / the WebIDL `IntegerPart` operation,
`integerPart` in the source), landing in `ℤ`. -/
def jsTrunc (q : ℚ) : ℤ := if q < 0 then ⌈q⌉ else ⌊q⌋

/-- `Math.trunc` as a number-to-number function (`integerPart` in the source). -/
def integerPart (q : ℚ) : ℚ := (jsTrunc q : ℚ)

/-- The JavaScript `%` (remainder) operator on finite numbers with nonzero
divisor: `x % y = x - y * trunc(x / y)`, a result with the sign of `x`. -/
def jsRem (x y : ℚ) : ℚ := x - y * integerPart (x / y)

/-- `modulo` from the source: the JS `%` remainder with a zero result
normalized to `+0` (a no-op in the rational model). -/
def modulo (x y : ℚ) : ℚ :=
  let r := jsRem x y
  if r = 0 then 0 else r

/-- `Math.sign` on finite numbers. -/
def mathSign (q : ℚ) : ℚ := if q < 0 then -1 else if 0 < q then 1 else 0

/-- `evenRound` from the source, verbatim: `i = integerPart(x) + 0`,
`reminder = abs(x % 1)`, `sign = Math.sign(i)`, then the half-even selection
with the final `-0` normalization. -/
def evenRound (x : ℚ) : ℚ :=
  let i := integerPart x + 0
  let reminder := |jsRem x 1|
  let sign := mathSign i
  if reminder = 1 / 2 then
    if jsRem i 2 = 0 then i else i + sign
  else
    let r := if reminder < 1 / 2 then i else i + sign
    if r = 0 then 0 else r

/-- `ToUint32`: reduction into `[0, 2^32)`. -/
def toUint32 (x : ℤ) : ℤ := x % 4294967296

/-- `ToInt32`: reduction into `[-2^31, 2^31)` (two's complement). -/
def toInt32 (x : ℤ) : ℤ :=
  let u := toUint32 x
  if u < 2147483648 then u else u - 4294967296

/-- The JavaScript `<<` operator: both operands pass through `ToInt32` /
`ToUint32`, the shift count is taken mod 32, and the result is reinterpreted
as a signed 32-bit integer. -/
def jsShl (a b : ℤ) : ℤ := toInt32 (toInt32 a * 2 ^ ((toUint32 b).toNat % 32))

/-- `pow2` from the source: `1 << exponent` for exponents below 31, the two
hard-coded constants at 31 and 32, and `Math.pow(2, exponent)` (exact for
these exponents) otherwise. -/
def pow2 (exponent : ℕ) : ℚ :=
  if exponent < 31 then ((jsShl 1 exponent : ℤ) : ℚ)
  else if exponent = 31 then 0x80000000
  else if exponent = 32 then 0x100000000
  else 2 ^ exponent

/-- `Number.MAX_SAFE_INTEGER` = `2^53 - 1`. -/
def numberMaxSafeInteger : ℚ := 9007199254740991

/-- `Number.MIN_SAFE_INTEGER` = `-(2^53 - 1)`. -/
def numberMinSafeInteger : ℚ := -9007199254740991

/-- Steps 1-3 of `convertToInt`: the lower bound determined by `bitLength`
and `signed`. -/
def lowerBound (bitLength : ℕ) (signed : Bool) : ℚ :=
  if bitLength = 64 then (if !signed then 0 else numberMinSafeInteger)
  else if !signed then 0
  else -pow2 (bitLength - 1)

/-- Steps 1-3 of `convertToInt`: the upper bound determined by `bitLength`
and `signed`. -/
def upperBound (bitLength : ℕ) (signed : Bool) : ℚ :=
  if bitLength = 64 then numberMaxSafeInteger
  else if !signed then pow2 bitLength - 1
  else pow2 (bitLength - 1) - 1

section TruncLemmas

lemma jsTrunc_eq_ceil {q : ℚ} (h : q < 0) : jsTrunc q = ⌈q⌉ := by
  unfold jsTrunc; rw [if_pos h]

lemma jsTrunc_eq_floor {q : ℚ} (h : 0 ≤ q) : jsTrunc q = ⌊q⌋ := by
  unfold jsTrunc; rw [if_neg (not_lt.2 h)]

lemma jsTrunc_intCast (k : ℤ) : jsTrunc (k : ℚ) = k := by
  unfold jsTrunc; split
  · exact Int.ceil_intCast k
  · exact Int.floor_intCast k

lemma jsTrunc_zero : jsTrunc 0 = 0 := by
  simpa using jsTrunc_intCast 0

/-- Characterize `jsTrunc` on nonnegative input. -/
lemma jsTrunc_eq_of_nonneg {q : ℚ} {k : ℤ} (h0 : 0 ≤ q)
    (h1 : (k : ℚ) ≤ q) (h2 : q < k + 1) : jsTrunc q = k := by
  rw [jsTrunc_eq_floor h0]
  exact Int.floor_eq_iff.2 ⟨h1, h2⟩

/-- Characterize `jsTrunc` on negative input. -/
lemma jsTrunc_eq_of_neg {q : ℚ} {k : ℤ} (h0 : q < 0)
    (h1 : (k : ℚ) - 1 < q) (h2 : q ≤ k) : jsTrunc q = k := by
  rw [jsTrunc_eq_ceil h0]
  exact Int.ceil_eq_iff.2 ⟨h1, h2⟩

lemma jsTrunc_eq_zero {q : ℚ} (h : |q| < 1) : jsTrunc q = 0 := by
  rw [abs_lt] at h
  rcases lt_or_le q 0 with hq | hq
  · exact jsTrunc_eq_of_neg hq (by push_cast; linarith [h.1]) (by push_cast; linarith)
  · exact jsTrunc_eq_of_nonneg hq (by push_cast; linarith) (by push_cast; linarith [h.2])

lemma le_jsTrunc_add_one {q : ℚ} : q < (jsTrunc q : ℚ) + 1 := by
  unfold jsTrunc; split
  · have := Int.le_ceil q
    linarith
  · have := Int.lt_floor_add_one q
    push_cast at this ⊢
    linarith

lemma jsTrunc_sub_one_lt {q : ℚ} : (jsTrunc q : ℚ) - 1 < q := by
  unfold jsTrunc; split
  · have := Int.ceil_lt_add_one q
    push_cast at this ⊢
    linarith
  · have := Int.floor_le q
    push_cast at this ⊢
    linarith

lemma jsTrunc_le_of_nonneg {q : ℚ} (h : 0 ≤ q) : (jsTrunc q : ℚ) ≤ q := by
  rw [jsTrunc_eq_floor h]; exact Int.floor_le q

lemma le_jsTrunc_of_nonpos {q : ℚ} (h : q ≤ 0) : q ≤ (jsTrunc q : ℚ) := by
  rcases lt_or_eq_of_le h with h' | h'
  · rw [jsTrunc_eq_ceil h']; exact Int.le_ceil q
  · subst h'; rw [jsTrunc_zero]; norm_num

lemma jsTrunc_nonneg {q : ℚ} (h : 0 ≤ q) : 0 ≤ jsTrunc q := by
  rw [jsTrunc_eq_floor h]; exact Int.floor_nonneg.2 h

lemma jsTrunc_nonpos {q : ℚ} (h : q ≤ 0) : jsTrunc q ≤ 0 := by
  rcases lt_or_eq_of_le h with h' | h'
  · rw [jsTrunc_eq_ceil h']; exact Int.ceil_le.2 (by exact_mod_cast h)
  · subst h'; rw [jsTrunc_zero]

end TruncLemmas

section Pow2Lemmas

lemma jsShl_one_eq (e : ℕ) (he : e < 31) : jsShl 1 (e : ℤ) = 2 ^ e := by
  have h32 : (toUint32 (e : ℤ)).toNat % 32 = e := by
    unfold toUint32
    have : ((e : ℤ) % 4294967296) = (e : ℤ) := by
      apply Int.emod_eq_of_lt (by positivity)
      omega
    rw [this]
    simp only [Int.toNat_natCast]
    omega
  unfold jsShl
  rw [h32]
  have h1 : toInt32 1 = 1 := by unfold toInt32 toUint32; decide
  rw [h1, one_mul]
  unfold toInt32 toUint32
  have hlt : (2 : ℤ) ^ e < 2147483648 := by
    calc (2 : ℤ) ^ e < 2 ^ 31 := by
          apply pow_lt_pow_right₀ (by norm_num) he
      _ = 2147483648 := by norm_num
  have hmod : (2 : ℤ) ^ e % 4294967296 = 2 ^ e := by
    apply Int.emod_eq_of_lt (by positivity)
    linarith
  simp only [hmod]
  rw [if_pos hlt]

lemma pow2_eq_two_pow (e : ℕ) (he : e ≤ 64) : pow2 e = 2 ^ e := by
  unfold pow2
  rcases lt_or_le e 31 with h | h
  · rw [if_pos h, jsShl_one_eq e h]
    push_cast
    ring
  · rw [if_neg (not_lt.2 h)]
    rcases eq_or_lt_of_le h with h31 | h31
    · rw [if_pos h31.symm, ← h31]; norm_num
    · rw [if_neg (by omega)]
      rcases eq_or_ne e 32 with h32 | h32
      · rw [if_pos h32, h32]; norm_num
      · rw [if_neg h32]

lemma pow2_pos {e : ℕ} (he : e ≤ 64) : 0 < pow2 e := by
  rw [pow2_eq_two_pow e he]; positivity

end Pow2Lemmas

mutual
/-- A dynamic JavaScript value, classified exactly like the source's `type`
function does.  An `object` carries what the sequence converter asks of it:
`V?.[SymbolIterator]?.()`, modelled as `none` when no iterator is obtainable,
or `some steps` giving the finite stream of results its `next()` produces
(running past the end of the stream models `next()` yielding `undefined`). -/
inductive JSVal where
  | undef
  | null
  | bool (b : Bool)
  | number (n : JSNum)
  | str (s : String)
  | symbol (id : ℕ)
  | bigint (i : ℤ)
  | object (iterator : Option (List IterRes))

/-- One result of a `next()` call on a source iterator, by what the loop can
observe of it.  `undefRes` is `res === undefined` (the only result the source
treats as "can not be converted to sequence"); `nullRes` is `res === null`,
on which reading `res.done` throws a raw TypeError; `res done value` is any
other result, carrying the values the property reads `res.done` and
`res.value` produce — `JSVal.undef` for an absent property, and both
`JSVal.undef` when the result is a shapeless primitive such as `5`, since
property reads on (boxed) primitives without those properties also give
`undefined`. -/
inductive IterRes where
  | undefRes
  | nullRes
  | res (done : JSVal) (value : JSVal)
end

/-- The strict comparison `x === true` performed on `res.done`. -/
def strictEqTrue : JSVal → Bool
  | .bool true => true
  | _ => false

/-- A well-formed non-terminal iterator result `{ done: false, value: v }`. -/
def IterRes.yield (v : JSVal) : IterRes := IterRes.res (JSVal.bool false) v

/-- A well-formed terminal iterator result `{ done: true }`. -/
def IterRes.doneTrue : IterRes := IterRes.res (JSVal.bool true) JSVal.undef

/-- `type` from the source: the ES `Type(V)` classification. -/
def type : JSVal → String
  | .null => "Null"
  | .undef => "Undefined"
  | .bool _ => "Boolean"
  | .number _ => "Number"
  | .str _ => "String"
  | .symbol _ => "Symbol"
  | .bigint _ => "BigInt"
  | .object _ => "Object"

/-- Display form of a number (the host's Number-to-String primitive; treated
as a trusted external, only its existence matters to the claims). -/
def JSNum.toDisplay : JSNum → String
  | .nan => "NaN"
  | .posInf => "Infinity"
  | .negInf => "-Infinity"
  | .num q => toString q

/-- The host's `String()` coercion, a trusted external primitive per the
spec (it is total, even on symbols, where `String()` uses the description). -/
def jsToString : JSVal → String
  | .undef => "undefined"
  | .null => "null"
  | .bool true => "true"
  | .bool false => "false"
  | .number n => n.toDisplay
  | .str s => s
  | .symbol id => "Symbol(" ++ toString id ++ ")"
  | .bigint i => toString i
  | .object _ => "[object Object]"

/-- The options record consumed by the converters.  Absent fields are `none`
(for the strings) or the JS destructuring defaults `false` (for the flags). -/
structure ConvOpts where
  signed : Bool := false
  enforceRange : Bool := false
  clamp : Bool := false
  context : Option String := none
  prefixStr : Option String := none
  code : Option String := none
deriving DecidableEq

/-- A thrown coercion error: a message plus an error-kind code. -/
structure CoercionError where
  message : String
  code : String
deriving DecidableEq

/-- `codedTypeError` from the source: a TypeError carrying a message with a
`code` property assigned onto it. -/
def codedTypeError (message : String) (code : String) : CoercionError :=
  { message := message, code := code }

/-- Modelled from the spec: the `ERR_INVALID_ARG_VALUE` class of
`internal/errors` (whose source is not part of this repository slice)
produces an error whose kind code is `"ERR_INVALID_ARG_VALUE"` and whose
message names the offending argument; the claims only inspect the code. -/
def errInvalidArgValue (name : String) (received : JSVal) : CoercionError :=
  { message := "The argument " ++ name ++ " is invalid. Received " ++ jsToString received
    code := "ERR_INVALID_ARG_VALUE" }

/-- `makeException` from the source: composes
`"<prefix>: <context> <message>"` — the prefix and its separator are dropped
when the prefix is absent or empty, the context defaults to `"Value"` unless
explicitly the empty string — and tags the result with `opts.code`, defaulting
(also for an empty string, as `||` does) to `ERR_INVALID_ARG_TYPE`. -/
def makeException (message : String) (opts : ConvOpts) : CoercionError :=
  let p := match opts.prefixStr with
    | some s => if s = "" then "" else s ++ ": "
    | none => ""
  let ctx := match opts.context with
    | some s => if s = "" then "" else s ++ " "
    | none => "Value "
  let c := match opts.code with
    | some s => if s = "" then "ERR_INVALID_ARG_TYPE" else s
    | none => "ERR_INVALID_ARG_TYPE"
  codedTypeError (p ++ ctx ++ message) c

/-- Step 7.1 of `convertToInt`: `MathMin(MathMax(x, lowerBound), upperBound)`
on a non-NaN number, with the IEEE behaviour on the infinities made explicit
(`max(+inf, lb) = +inf`, then `min(+inf, ub) = ub`, and symmetrically). -/
def clampToBounds (x : JSNum) (lowerBound upperBound : ℚ) : ℚ :=
  match x with
  | .nan => 0
  | .posInf => upperBound
  | .negInf => min lowerBound upperBound
  | .num q => min (max q lowerBound) upperBound

/-- `convertToInt` from the source.  The host's `ToNumber` coercion (step 4)
is a trusted external primitive; the model receives its output, a `JSNum`
(with `-0` already identified with `+0`, the source's step 5). -/
def convertToInt (name : String) (value : JSNum) (bitLength : ℕ)
    (options : ConvOpts := {}) : Except CoercionError ℚ :=
  let signed := options.signed
  let enforceRange := options.enforceRange
  let clamp := options.clamp
  let lb := lowerBound bitLength signed
  let ub := upperBound bitLength signed
  let x := value
  if enforceRange then
    -- 6.1: reject NaN and the infinities.
    if x.isNaN ∨ x = JSNum.posInf ∨ x = JSNum.negInf then
      .error (errInvalidArgValue name (.number x))
    else
      match x with
      | .num q =>
        -- 6.2-6.4: truncate, range-check, return.
        let t : ℤ := jsTrunc q
        if (t : ℚ) < lb ∨ (t : ℚ) > ub then
          .error (errInvalidArgValue name (.number (.num t)))
        else .ok t
      | _ => .ok 0  -- unreachable: x is finite here
  else if clamp ∧ ¬x.isNaN then
    -- 7: clamp into range, then round half-to-even.
    .ok (evenRound (clampToBounds x lb ub))
  else if x.isNaN ∨ x = JSNum.num 0 ∨ x = JSNum.posInf ∨ x = JSNum.negInf then
    -- 8: NaN, +0 and the infinities become +0.
    .ok 0
  else
    match x with
    | .num q =>
      -- 9-12: truncate, reduce by `modulo`, signed wrap.
      let t : ℚ := integerPart q
      let m := modulo t (pow2 bitLength)
      if signed = true ∧ pow2 (bitLength - 1) ≤ m then .ok (m - pow2 bitLength)
      else .ok m
    | _ => .ok 0  -- unreachable: x is finite and nonzero here

/-- `converters.DOMString` from the source: rejects symbols with
`ERR_INVALID_ARG_VALUE("value", V)`, otherwise the standard string coercion. -/
def DOMString (V : JSVal) : Except CoercionError String :=
  match V with
  | .symbol id => .error (errInvalidArgValue "value" (.symbol id))
  | _ => .ok (jsToString V)

/-- The ASCII apostrophe, as a one-character string. -/
def quoteChar : String := String.mk [Char.ofNat 39]

/-- `createEnumConverter` from the source: membership in the frozen value
set (a `SafeSet`, modelled by list membership), with the failure message
embedding the coerced string and the enum name, and the error code forced to
`ERR_INVALID_ARG_VALUE` after spreading the caller's options. -/
def createEnumConverter (name : String) (values : List String) :
    JSVal → ConvOpts → Except CoercionError String :=
  fun V opts =>
    let S := jsToString V
    if values.contains S then .ok S
    else
      .error (makeException
        ("value " ++ quoteChar ++ S ++ quoteChar ++
          " is not a valid enum value of type " ++ name ++ ".")
        { opts with code := some "ERR_INVALID_ARG_VALUE" })

/-- Template-literal stringification of a possibly-absent string field: JS
interpolates the `undefined` of an absent field as the string "undefined". -/
def interpolate : Option String → String
  | some s => s
  | none => "undefined"

/-- The host's TypeError raised by reading a property of `null` — here
`res.done` when `next()` returned `null`.  A raw TypeError from the host: it
carries no error-kind `code` property, modelled by the empty code (every
error this module itself constructs has a nonempty code). -/
def nullAccessTypeError : CoercionError :=
  { message := "Cannot read properties of null", code := "" }

/-- The loop of the sequence converter: `iter.next()` results are consumed
in order.  Only `res === undefined` (also produced by running past the end
of the stream) raises the sequence error; a `null` result propagates the
host's TypeError from the `res.done` read; on any other result the loop
checks `res.done === true` to stop, and otherwise converts `res.value` with
the indexed context `` `${opts.context}[${array.length}]` `` and pushes it. -/
def sequenceLoop {α : Type} (converter : JSVal → ConvOpts → Except CoercionError α)
    (opts : ConvOpts) : List IterRes → List α → Except CoercionError (List α)
  | [], _ => .error (makeException "can not be converted to sequence." opts)
  | .undefRes :: _, _ => .error (makeException "can not be converted to sequence." opts)
  | .nullRes :: _, _ => .error nullAccessTypeError
  | .res done value :: rest, array =>
    if strictEqTrue done then .ok array
    else
      match converter value { opts with
          context := some (interpolate opts.context ++ "[" ++ toString array.length ++ "]") } with
      | .error e => .error e
      | .ok val => sequenceLoop converter opts rest (array ++ [val])

/-- `createSequenceConverter` from the source: non-Objects and objects from
which no iterator is obtainable are rejected with the sequence error;
otherwise the iterator is driven by `sequenceLoop` starting from an empty
array. -/
def createSequenceConverter {α : Type}
    (converter : JSVal → ConvOpts → Except CoercionError α) :
    JSVal → ConvOpts → Except CoercionError (List α) :=
  fun V opts =>
    if type V ≠ "Object" then
      .error (makeException "can not be converted to sequence." opts)
    else
      match V with
      | .object iterator =>
        match iterator with
        | none => .error (makeException "can not be converted to sequence." opts)
        | some steps => sequenceLoop converter opts steps []
      | _ => .error (makeException "can not be converted to sequence." opts)
        -- unreachable: `type V = "Object"` forces the `object` constructor

/-- Round-half-to-even as the spec words it (reference definition for C3,
not taken from the source): the nearest integer, with a tie going to the
even neighbor. -/
def roundHalfToEven (q : ℚ) : ℤ :=
  if q - ⌊q⌋ < 1 / 2 then ⌊q⌋
  else if 1 / 2 < q - ⌊q⌋ then ⌊q⌋ + 1
  else if ⌊q⌋ % 2 = 0 then ⌊q⌋ else ⌊q⌋ + 1

/-- A probe element converter that reports the context it was handed
(used to observe the derived options of the sequence converter). -/
def probeConverter : JSVal → ConvOpts → Except CoercionError (Option String) :=
  fun _ opts => .ok opts.context

section RemLemmas

/-- The `-0` normalization inside `modulo` is invisible in the rational
model: `modulo` is exactly the JS remainder. -/
lemma modulo_eq_jsRem (x y : ℚ) : modulo x y = jsRem x y := by
  unfold modulo
  dsimp only
  split
  · next h => exact h.symm
  · rfl

lemma jsRem_intCast_small {a : ℤ} {y : ℚ} (hy : 0 < y) (ha : |(a : ℚ)| < y) :
    jsRem (a : ℚ) y = a := by
  unfold jsRem integerPart
  have : jsTrunc ((a : ℚ) / y) = 0 := by
    apply jsTrunc_eq_zero
    rw [abs_div, abs_of_pos hy, div_lt_one hy]
    exact ha
  rw [this]
  push_cast
  ring

lemma jsRem_small {x y : ℚ} (hy : 0 < y) (hx : |x| < y) : jsRem x y = x := by
  unfold jsRem integerPart
  have : jsTrunc (x / y) = 0 := by
    apply jsTrunc_eq_zero
    rw [abs_div, abs_of_pos hy, div_lt_one hy]
    exact hx
  rw [this]
  push_cast
  ring

/-- The remainder is the dividend minus an integer multiple of the divisor. -/
lemma jsRem_sub_int_mul (x y : ℚ) : jsRem x y = x - y * (jsTrunc (x / y) : ℚ) := rfl

/-- Size bound on the JS remainder for a positive divisor. -/
lemma abs_jsRem_lt {x y : ℚ} (hy : 0 < y) : |jsRem x y| < y := by
  unfold jsRem integerPart
  have h1 : (x / y) < (jsTrunc (x / y) : ℚ) + 1 := le_jsTrunc_add_one
  have h2 : (jsTrunc (x / y) : ℚ) - 1 < x / y := jsTrunc_sub_one_lt
  rw [abs_lt]
  constructor
  · have h3 := (lt_div_iff₀ hy).1 h2
    nlinarith [h3]
  · have h3 := (div_lt_iff₀ hy).1 h1
    nlinarith [h3]

/-- Sign of the JS remainder: it never flips the dividend's sign. -/
lemma jsRem_nonneg {x y : ℚ} (hx : 0 ≤ x) (hy : 0 < y) : 0 ≤ jsRem x y := by
  unfold jsRem integerPart
  have ht : (jsTrunc (x / y) : ℚ) ≤ x / y := jsTrunc_le_of_nonneg (by positivity)
  have := (mul_le_mul_of_nonneg_left ht (le_of_lt hy))
  calc (0 : ℚ) = x - y * (x / y) := by field_simp
    _ ≤ x - y * (jsTrunc (x / y) : ℚ) := by linarith

lemma jsRem_nonpos {x y : ℚ} (hx : x ≤ 0) (hy : 0 < y) : jsRem x y ≤ 0 := by
  unfold jsRem integerPart
  have hdiv : x / y ≤ 0 := div_nonpos_of_nonpos_of_nonneg hx (le_of_lt hy)
  have ht : x / y ≤ (jsTrunc (x / y) : ℚ) := le_jsTrunc_of_nonpos hdiv
  have := mul_le_mul_of_nonneg_left ht (le_of_lt hy)
  calc x - y * (jsTrunc (x / y) : ℚ) ≤ x - y * (x / y) := by linarith
    _ = 0 := by field_simp

/-- The remainder of an integer by an integer is an integer. -/
lemma jsRem_int_int (a : ℤ) (y : ℚ) (hy : ∃ k : ℤ, y = (k : ℚ)) :
    ∃ m : ℤ, jsRem (a : ℚ) y = (m : ℚ) := by
  obtain ⟨k, rfl⟩ := hy
  exact ⟨a - k * jsTrunc ((a : ℚ) / k), by push_cast [jsRem_sub_int_mul]; ring⟩

end RemLemmas

section EvenRoundLemmas

lemma jsRem_one (x : ℚ) : jsRem x 1 = x - integerPart x := by
  unfold jsRem
  rw [div_one, one_mul]

/-- The three possible outcomes of `evenRound`: `0`, the integer part, or the
integer part nudged by `Math.sign` of the integer part — the nudge happening
only when the fractional magnitude is at least one half. -/
lemma evenRound_cases (q : ℚ) :
    evenRound q = 0 ∨ evenRound q = integerPart q ∨
      (evenRound q = integerPart q + mathSign (integerPart q) ∧ 1 / 2 ≤ |jsRem q 1|) := by
  unfold evenRound
  simp only [add_zero]
  split
  · next h =>
    split
    · right; left; rfl
    · right; right; exact ⟨rfl, le_of_eq h.symm⟩
  · next h =>
    split
    · split
      · left; rfl
      · right; left; rfl
    · next hlt =>
      split
      · left; rfl
      · right; right; exact ⟨rfl, le_of_not_lt hlt⟩

lemma evenRound_intCast (k : ℤ) : evenRound (k : ℚ) = k := by
  unfold evenRound
  have hip : integerPart (k : ℚ) = (k : ℚ) := by
    unfold integerPart; rw [jsTrunc_intCast]
  have hrem : jsRem (k : ℚ) 1 = 0 := by
    rw [jsRem_one, hip, sub_self]
  simp only [add_zero, hip, hrem, abs_zero]
  rw [if_neg (by norm_num : ¬(0 : ℚ) = 1 / 2)]
  rw [if_pos (by norm_num : (0 : ℚ) < 1 / 2)]
  split
  · next h => exact h.symm
  · rfl

/-- `evenRound` always lands on an integer. -/
lemma evenRound_isInt (q : ℚ) : ∃ m : ℤ, evenRound q = (m : ℚ) := by
  rcases evenRound_cases q with h | h | ⟨h, _⟩
  · exact ⟨0, by simpa using h⟩
  · exact ⟨jsTrunc q, h⟩
  · unfold integerPart mathSign at h
    rcases lt_trichotomy ((jsTrunc q : ℚ)) 0 with hts | hts | hts
    · refine ⟨jsTrunc q - 1, ?_⟩
      rw [h, if_pos hts]
      push_cast
      ring
    · refine ⟨jsTrunc q, ?_⟩
      rw [h, if_neg (by rw [hts]; exact lt_irrefl 0), if_neg (by rw [hts]; exact lt_irrefl 0)]
      ring
    · refine ⟨jsTrunc q + 1, ?_⟩
      rw [h, if_neg (by linarith), if_pos hts]
      push_cast
      ring

/-- `evenRound` of a value lying in an integer interval around zero stays
in that interval. -/
lemma evenRound_mem {q : ℚ} {lb ub : ℤ} (hlb : lb ≤ 0) (hub : 0 ≤ ub)
    (h1 : (lb : ℚ) ≤ q) (h2 : q ≤ (ub : ℚ)) :
    (lb : ℚ) ≤ evenRound q ∧ evenRound q ≤ (ub : ℚ) := by
  have hlbq : (lb : ℚ) ≤ 0 := by exact_mod_cast hlb
  have hubq : (0 : ℚ) ≤ (ub : ℚ) := by exact_mod_cast hub
  have hi : (lb : ℚ) ≤ integerPart q ∧ integerPart q ≤ (ub : ℚ) := by
    unfold integerPart
    rcases le_or_lt 0 q with hq | hq
    · have u := jsTrunc_le_of_nonneg hq
      have l : (0 : ℚ) ≤ (jsTrunc q : ℚ) := by exact_mod_cast jsTrunc_nonneg hq
      exact ⟨by linarith, by linarith⟩
    · have u := le_jsTrunc_of_nonpos (le_of_lt hq)
      have l : (jsTrunc q : ℚ) ≤ 0 := by exact_mod_cast jsTrunc_nonpos (le_of_lt hq)
      exact ⟨by linarith, by linarith⟩
  rcases evenRound_cases q with h | h | ⟨h, hrem⟩
  · rw [h]; exact ⟨hlbq, hubq⟩
  · rw [h]; exact hi
  · rw [h]
    unfold integerPart at *
    set t := jsTrunc q with ht
    rw [jsRem_one] at hrem
    unfold integerPart at hrem
    rw [← ht] at hrem
    unfold mathSign
    rcases lt_trichotomy ((t : ℚ)) 0 with hts | hts | hts
    · rw [if_pos hts]
      -- t < 0 forces q < 0 and |q - t| = t - q ≥ 1/2
      have hq0 : q < 0 := by
        by_contra hq
        push_neg at hq
        have : (0 : ℚ) ≤ (t : ℚ) := by exact_mod_cast jsTrunc_nonneg hq
        linarith
      have hqt : q ≤ (t : ℚ) := le_jsTrunc_of_nonpos (le_of_lt hq0)
      have habs : |q - (t : ℚ)| = (t : ℚ) - q := by
        rw [abs_of_nonpos (by linarith)]; ring
      rw [habs] at hrem
      have htz : t < 0 := by exact_mod_cast hts
      have hlbt : (lb : ℚ) ≤ (t : ℚ) - 1 := by
        -- lb ≤ q ≤ t - 1/2 with lb, t integers
        have : (lb : ℚ) ≤ (t : ℚ) - 1 / 2 := by linarith
        have : lb < t := by exact_mod_cast (by linarith : (lb : ℚ) < (t : ℚ))
        have : lb ≤ t - 1 := by omega
        exact_mod_cast this
      exact ⟨by linarith, by linarith⟩
    · rw [if_neg (by rw [hts]; exact lt_irrefl 0), if_neg (by rw [hts]; exact lt_irrefl 0),
        add_zero]
      exact hi
    · rw [if_neg (by linarith), if_pos hts]
      have hq0 : 0 ≤ q := by
        by_contra hq
        push_neg at hq
        have : (t : ℚ) ≤ 0 := by exact_mod_cast jsTrunc_nonpos (le_of_lt hq)
        linarith
      have hqt : (t : ℚ) ≤ q := jsTrunc_le_of_nonneg hq0
      have habs : |q - (t : ℚ)| = q - (t : ℚ) := by
        rw [abs_of_nonneg (by linarith)]
      rw [habs] at hrem
      have hubt : (t : ℚ) + 1 ≤ (ub : ℚ) := by
        have : (t : ℚ) + 1 / 2 ≤ (ub : ℚ) := by linarith
        have : t < ub := by exact_mod_cast (by linarith : (t : ℚ) < (ub : ℚ))
        have : t + 1 ≤ ub := by omega
        exact_mod_cast this
      exact ⟨by linarith, by linarith⟩

end EvenRoundLemmas

section EvalLemmas

lemma integerPart_intCast (k : ℤ) : integerPart (k : ℚ) = (k : ℚ) := by
  unfold integerPart
  rw [jsTrunc_intCast]

lemma pow2_eight : pow2 8 = 256 := by
  rw [pow2_eq_two_pow 8 (by norm_num)]
  norm_num

lemma pow2_seven : pow2 7 = 128 := by
  rw [pow2_eq_two_pow 7 (by norm_num)]
  norm_num

end EvalLemmas

/-- C1: the spec says the default-path reduction "yields a result with the
same sign as the (positive) modulus", i.e. a non-negative reduced value.  The
code instead reduces with the JS `%` remainder, whose result keeps the sign
of the dividend: at truncated value `-1` with `bitLength = 8` the reduced
value is `-1 < 0`, and the unsigned default conversion returns `-1`. -/
theorem c1_default_reduction_negative :
    modulo (-1) (pow2 8) = -1 ∧
    convertToInt "x" (JSNum.num (-1)) 8 {} = .ok (-1) := by
  have hm : modulo (-1 : ℚ) (pow2 8) = -1 := by
    rw [pow2_eight, modulo_eq_jsRem]
    have := jsRem_intCast_small (a := -1) (y := 256) (by norm_num) (by push_cast; norm_num)
    simpa using this
  refine ⟨hm, ?_⟩
  unfold convertToInt
  have hip : integerPart (-1 : ℚ) = -1 := by
    simpa using integerPart_intCast (-1)
  simp [JSNum.isNaN, hip, hm]

/-- C6: `pow2 31` is the hard-coded `0x80000000` and `pow2 32` the hard-coded
`0x100000000`; the `1 << e` evaluation (32-bit signed shift semantics) is used
exactly for exponents below 31 and is exact there; consequently `pow2 e = 2^e`
for every exponent `convertToInt` uses, namely `bitLength` and `bitLength - 1`
for `bitLength ∈ {8, 16, 32, 64}`. -/
theorem c6_pow2_exact :
    pow2 31 = 0x80000000 ∧ pow2 32 = 0x100000000 ∧
    (∀ e : ℕ, e < 31 → pow2 e = ((jsShl 1 (e : ℤ) : ℤ) : ℚ) ∧ pow2 e = 2 ^ e) ∧
    pow2 7 = 2 ^ 7 ∧ pow2 8 = 2 ^ 8 ∧ pow2 15 = 2 ^ 15 ∧ pow2 16 = 2 ^ 16 ∧
    pow2 31 = 2 ^ 31 ∧ pow2 32 = 2 ^ 32 ∧ pow2 63 = 2 ^ 63 ∧ pow2 64 = 2 ^ 64 := by
  refine ⟨by norm_num [pow2], by norm_num [pow2], ?_, ?_, ?_, ?_, ?_, ?_, ?_, ?_, ?_⟩
  · intro e he
    constructor
    · unfold pow2
      rw [if_pos he]
    · exact pow2_eq_two_pow e (by omega)
  all_goals first
    | exact pow2_eq_two_pow 7 (by norm_num)
    | exact pow2_eq_two_pow 8 (by norm_num)
    | exact pow2_eq_two_pow 15 (by norm_num)
    | exact pow2_eq_two_pow 16 (by norm_num)
    | exact pow2_eq_two_pow 31 (by norm_num)
    | exact pow2_eq_two_pow 32 (by norm_num)
    | exact pow2_eq_two_pow 63 (by norm_num)
    | exact pow2_eq_two_pow 64 (by norm_num)

/-- Witness for C6: the universally quantified conjunct applied at `e = 8`. -/
theorem c6_pow2_exact_witness :
    pow2 8 = ((jsShl 1 (8 : ℤ) : ℤ) : ℚ) :=
  (c6_pow2_exact.2.2.1 8 (by norm_num)).1

section ConcreteEvals

lemma evenRound_five_halves : evenRound (5 / 2) = 2 := by
  unfold evenRound
  have h1 : integerPart (5 / 2 : ℚ) = 2 := by
    unfold integerPart
    rw [jsTrunc_eq_of_nonneg (k := 2) (by norm_num) (by norm_num) (by norm_num)]
    norm_num
  have h2 : jsRem (5 / 2 : ℚ) 1 = 1 / 2 := by
    rw [jsRem_one, h1]
    norm_num
  have h3 : jsRem (2 : ℚ) 2 = 0 := by
    unfold jsRem
    have : (2 : ℚ) / 2 = ((1 : ℤ) : ℚ) := by norm_num
    rw [this, integerPart_intCast]
    norm_num
  simp only [add_zero, h1, h2, h3]
  rw [abs_of_nonneg (by norm_num : (0 : ℚ) ≤ 1 / 2)]
  simp

lemma evenRound_seven_halves : evenRound (7 / 2) = 4 := by
  unfold evenRound
  have h1 : integerPart (7 / 2 : ℚ) = 3 := by
    unfold integerPart
    rw [jsTrunc_eq_of_nonneg (k := 3) (by norm_num) (by norm_num) (by norm_num)]
    norm_num
  have h2 : jsRem (7 / 2 : ℚ) 1 = 1 / 2 := by
    rw [jsRem_one, h1]
    norm_num
  have h3 : jsRem (3 : ℚ) 2 = 1 := by
    unfold jsRem
    have hd : (3 : ℚ) / 2 = 3 / 2 := rfl
    have ht : integerPart (3 / 2 : ℚ) = 1 := by
      unfold integerPart
      rw [jsTrunc_eq_of_nonneg (k := 1) (by norm_num) (by norm_num) (by norm_num)]
      norm_num
    rw [hd, ht]
    norm_num
  simp only [add_zero, h1, h2, h3]
  rw [abs_of_nonneg (by norm_num : (0 : ℚ) ≤ 1 / 2)]
  rw [if_pos rfl, if_neg (by norm_num : ¬(1 : ℚ) = 0)]
  unfold mathSign
  rw [if_neg (by norm_num : ¬(3 : ℚ) < 0), if_pos (by norm_num : (0 : ℚ) < 3)]
  norm_num

lemma evenRound_neg_seven_tenths : evenRound (-7 / 10) = 0 := by
  unfold evenRound
  have h1 : integerPart (-7 / 10 : ℚ) = 0 := by
    unfold integerPart
    rw [jsTrunc_eq_zero (by rw [abs_lt]; constructor <;> norm_num)]
    norm_num
  have h2 : jsRem (-7 / 10 : ℚ) 1 = -7 / 10 := by
    rw [jsRem_one, h1]
    norm_num
  simp only [add_zero, h1, h2]
  rw [abs_of_nonpos (by norm_num : (-7 / 10 : ℚ) ≤ 0)]
  rw [if_neg (by norm_num : ¬(-(-7 / 10) : ℚ) = 1 / 2)]
  rw [if_neg (by norm_num : ¬(-(-7 / 10) : ℚ) < 1 / 2)]
  unfold mathSign
  rw [if_neg (by norm_num : ¬(0 : ℚ) < 0), if_neg (by norm_num : ¬(0 : ℚ) < 0)]
  rw [if_pos (by norm_num : (0 : ℚ) + 0 = 0)]

lemma modulo_neg_one_pow2_eight : modulo (-1 : ℚ) (pow2 8) = -1 := by
  rw [pow2_eight, modulo_eq_jsRem]
  have := jsRem_intCast_small (a := -1) (y := 256) (by norm_num) (by push_cast; norm_num)
  simpa using this

lemma lowerBound_eight_unsigned : lowerBound 8 false = 0 := by
  norm_num [lowerBound]

lemma upperBound_eight_unsigned : upperBound 8 false = 255 := by
  norm_num [upperBound, pow2_eight]

lemma lowerBound_eight_signed : lowerBound 8 true = -128 := by
  norm_num [lowerBound, pow2_seven]

lemma upperBound_eight_signed : upperBound 8 true = 127 := by
  norm_num [upperBound, pow2_seven]

end ConcreteEvals

/-- C3: the cited clamp examples hold (`2.5 → 2`, `3.5 → 4`), but the claim
"rounds to the nearest integer with round-half-to-even" fails on the code: at
`-0.7` (signed 8-bit, clamp) the clamped value is `-0.7` itself, its
round-half-to-even is `-1`, yet the conversion returns `0` — `evenRound`
takes `Math.sign` of the already-`-0`-normalized integer part, so negative
fractions in `(-1, -1/2)` collapse to `0`. -/
theorem c3_clamp_evenRound_deviates :
    convertToInt "x" (JSNum.num (5 / 2)) 8 { clamp := true } = .ok 2 ∧
    convertToInt "x" (JSNum.num (7 / 2)) 8 { clamp := true } = .ok 4 ∧
    convertToInt "x" (JSNum.num (-7 / 10)) 8 { signed := true, clamp := true } = .ok 0 ∧
    clampToBounds (JSNum.num (-7 / 10)) (lowerBound 8 true) (upperBound 8 true) = -7 / 10 ∧
    roundHalfToEven (-7 / 10) = -1 := by
  have hc1 : clampToBounds (JSNum.num (5 / 2)) (lowerBound 8 false) (upperBound 8 false)
      = 5 / 2 := by
    rw [lowerBound_eight_unsigned, upperBound_eight_unsigned]
    show min (max (5 / 2 : ℚ) 0) 255 = 5 / 2
    rw [max_eq_left (by norm_num), min_eq_left (by norm_num)]
  have hc2 : clampToBounds (JSNum.num (7 / 2)) (lowerBound 8 false) (upperBound 8 false)
      = 7 / 2 := by
    rw [lowerBound_eight_unsigned, upperBound_eight_unsigned]
    show min (max (7 / 2 : ℚ) 0) 255 = 7 / 2
    rw [max_eq_left (by norm_num), min_eq_left (by norm_num)]
  have hc3 : clampToBounds (JSNum.num (-7 / 10)) (lowerBound 8 true) (upperBound 8 true)
      = -7 / 10 := by
    rw [lowerBound_eight_signed, upperBound_eight_signed]
    show min (max (-7 / 10 : ℚ) (-128)) 127 = -7 / 10
    rw [max_eq_left (by norm_num), min_eq_left (by norm_num)]
  refine ⟨?_, ?_, ?_, hc3, ?_⟩
  · unfold convertToInt
    simp [JSNum.isNaN, hc1, evenRound_five_halves]
  · unfold convertToInt
    simp [JSNum.isNaN, hc2, evenRound_seven_halves]
  · unfold convertToInt
    simp [JSNum.isNaN, hc3, evenRound_neg_seven_tenths]
  · unfold roundHalfToEven
    have hf : ⌊(-7 / 10 : ℚ)⌋ = -1 := by
      rw [Int.floor_eq_iff]
      norm_num
    rw [hf]
    rw [if_pos (by push_cast; norm_num : (-7 / 10 : ℚ) - ((-1 : ℤ) : ℚ) < 1 / 2)]

/-- C4: in default wrapping mode (no enforceRange, no clamp) on a finite
nonzero number, the result is the `modulo`-reduction of the truncated value
by `2^bitLength` (a value congruent to it modulo `2^bitLength`), with the
signed adjustment subtracting `2^bitLength` exactly when the reduced value is
at least `2^(bitLength-1)`; in particular `256` wraps to `0` at 8 bits and
`-1` stays `-1` at signed 8 bits. -/
theorem c4_default_wrap :
    (∀ (name : String) (q : ℚ) (b : ℕ) (o : ConvOpts),
        o.enforceRange = false → o.clamp = false → q ≠ 0 →
        b = 8 ∨ b = 16 ∨ b = 32 ∨ b = 64 →
        (∃ j : ℤ, modulo (integerPart q) (pow2 b)
            = integerPart q - (j : ℚ) * 2 ^ b) ∧
        convertToInt name (JSNum.num q) b o =
          .ok (if o.signed = true ∧ (2 : ℚ) ^ (b - 1) ≤ modulo (integerPart q) (pow2 b)
               then modulo (integerPart q) (pow2 b) - 2 ^ b
               else modulo (integerPart q) (pow2 b))) ∧
    convertToInt "x" (JSNum.num 256) 8 {} = .ok 0 ∧
    convertToInt "x" (JSNum.num (-1)) 8 { signed := true } = .ok (-1) := by
  refine ⟨?_, ?_, ?_⟩
  · intro name q b o hE hC hq hb
    have hble : b ≤ 64 := by rcases hb with rfl | rfl | rfl | rfl <;> norm_num
    have hp : pow2 b = 2 ^ b := pow2_eq_two_pow b hble
    have hp1 : pow2 (b - 1) = 2 ^ (b - 1) := pow2_eq_two_pow (b - 1) (by omega)
    constructor
    · refine ⟨jsTrunc (integerPart q / pow2 b), ?_⟩
      rw [modulo_eq_jsRem, jsRem_sub_int_mul, hp]
      unfold integerPart
      ring_nf
    · unfold convertToInt
      simp only [hE, hC, Bool.false_eq_true, if_false, false_and, JSNum.isNaN]
      rw [if_neg (by simp [hq])]
      rw [hp1, hp]
      split <;> rfl
  · unfold convertToInt
    have hm : modulo (integerPart (256 : ℚ)) (pow2 8) = 0 := by
      have hip : integerPart (256 : ℚ) = ((256 : ℤ) : ℚ) := by
        simpa using integerPart_intCast 256
      rw [hip, pow2_eight, modulo_eq_jsRem]
      unfold jsRem
      have : ((256 : ℤ) : ℚ) / 256 = ((1 : ℤ) : ℚ) := by norm_num
      rw [this, integerPart_intCast]
      norm_num
    simp [JSNum.isNaN, hm]
  · unfold convertToInt
    have hip : integerPart (-1 : ℚ) = -1 := by simpa using integerPart_intCast (-1)
    have h81 : (8 : ℕ) - 1 = 7 := by norm_num
    simp only [JSNum.isNaN, hip, modulo_neg_one_pow2_eight, h81, pow2_seven]
    norm_num
    exact ⟨fun h => JSNum.noConfusion h, fun h => JSNum.noConfusion h⟩

/-- The `enforceRange` path of `convertToInt` on a finite number, as a single
conditional: reject out-of-bounds truncations, return in-bounds ones. -/
lemma convertToInt_enforce_num (name : String) (q : ℚ) (b : ℕ) (o : ConvOpts)
    (hE : o.enforceRange = true) :
    convertToInt name (JSNum.num q) b o =
      if (jsTrunc q : ℚ) < lowerBound b o.signed ∨ (jsTrunc q : ℚ) > upperBound b o.signed
      then .error (errInvalidArgValue name (.number (.num (jsTrunc q))))
      else .ok (jsTrunc q : ℚ) := by
  unfold convertToInt
  simp only [hE, if_true, JSNum.isNaN]
  rw [if_neg]
  exact fun h => by
    rcases h with h | h | h
    · simp at h
    · exact JSNum.noConfusion h
    · exact JSNum.noConfusion h

/-- C2 counterexample: the claim says that with `enforceRange` unset NaN and
the infinities map to `0`; but with `clamp` set, `+Infinity` is clamped to
the upper bound instead — at 8 bits unsigned the result is `255`, not `0`. -/
theorem c2_infinity_clamp_counterexample :
    convertToInt "x" JSNum.posInf 8 { clamp := true } = .ok 255 ∧ (255 : ℚ) ≠ 0 := by
  constructor
  · unfold convertToInt
    have h : clampToBounds JSNum.posInf (lowerBound 8 false) (upperBound 8 false) = 255 := by
      show upperBound 8 false = 255
      exact upperBound_eight_unsigned
    have he : evenRound (255 : ℚ) = 255 := by simpa using evenRound_intCast 255
    simp [JSNum.isNaN, h, he]
  · norm_num

/-- C2 (amended): `convertToInt` raises an error — of kind
`ERR_INVALID_ARG_VALUE` — iff `enforceRange` is set and either the number is
NaN or an infinity, or its truncation toward zero lies outside
`[lowerBound, upperBound]`; in the successful `enforceRange` case it returns
the truncated integer (the characterization holds for every options record,
so the check takes priority over `clamp`); with `enforceRange` unset it never
throws, NaN maps to `0`, and the infinities map to `0` when `clamp` is also
unset (with `clamp` set they are instead clamped into range — the
amendment forced by the counterexample). -/
theorem c2_enforceRange_characterization (name : String) (v : JSNum) (b : ℕ)
    (o : ConvOpts) :
    (o.enforceRange = true →
      ((∃ e, convertToInt name v b o = .error e ∧ e.code = "ERR_INVALID_ARG_VALUE") ↔
        (v = .nan ∨ v = .posInf ∨ v = .negInf ∨
          ∃ q : ℚ, v = .num q ∧
            ((jsTrunc q : ℚ) < lowerBound b o.signed ∨
              (jsTrunc q : ℚ) > upperBound b o.signed))) ∧
      (∀ q : ℚ, v = .num q →
        lowerBound b o.signed ≤ (jsTrunc q : ℚ) →
        (jsTrunc q : ℚ) ≤ upperBound b o.signed →
        convertToInt name v b o = .ok (jsTrunc q : ℚ))) ∧
    (o.enforceRange = false →
      (∃ r, convertToInt name v b o = .ok r) ∧
      (v = .nan → convertToInt name v b o = .ok 0) ∧
      (o.clamp = false → v = .posInf ∨ v = .negInf →
        convertToInt name v b o = .ok 0)) := by
  constructor
  · intro hE
    constructor
    · constructor
      · rintro ⟨e, he, _⟩
        rcases v with _ | _ | _ | q
        · exact Or.inl rfl
        · exact Or.inr (Or.inl rfl)
        · exact Or.inr (Or.inr (Or.inl rfl))
        · refine Or.inr (Or.inr (Or.inr ⟨q, rfl, ?_⟩))
          by_contra hcon
          push_neg at hcon
          rw [convertToInt_enforce_num name q b o hE,
            if_neg (by push_neg; exact hcon)] at he
          exact Except.noConfusion he
      · rintro (rfl | rfl | rfl | ⟨q, rfl, hq⟩)
        · refine ⟨errInvalidArgValue name (.number .nan), ?_, rfl⟩
          unfold convertToInt
          simp [hE, JSNum.isNaN]
        · refine ⟨errInvalidArgValue name (.number .posInf), ?_, rfl⟩
          unfold convertToInt
          simp [hE, JSNum.isNaN]
        · refine ⟨errInvalidArgValue name (.number .negInf), ?_, rfl⟩
          unfold convertToInt
          simp [hE, JSNum.isNaN]
        · refine ⟨errInvalidArgValue name (.number (.num (jsTrunc q))), ?_, rfl⟩
          rw [convertToInt_enforce_num name q b o hE, if_pos hq]
    · intro q hv hle hge
      subst hv
      rw [convertToInt_enforce_num name q b o hE,
        if_neg (by push_neg; exact ⟨not_lt.1 (not_lt.2 hle), not_lt.1 (not_lt.2 hge)⟩)]
  · intro hE
    refine ⟨?_, ?_, ?_⟩
    · unfold convertToInt
      simp only [hE, Bool.false_eq_true, if_false]
      split
      · exact ⟨_, rfl⟩
      · split
        · exact ⟨_, rfl⟩
        · rcases v with _ | _ | _ | q
          · exact ⟨0, rfl⟩
          · exact ⟨0, rfl⟩
          · exact ⟨0, rfl⟩
          · show ∃ r, (if _ ∧ _ then _ else _) = Except.ok r
            split
            · exact ⟨_, rfl⟩
            · exact ⟨_, rfl⟩
    · rintro rfl
      unfold convertToInt
      simp [hE, JSNum.isNaN]
    · rintro hC (rfl | rfl)
      · unfold convertToInt
        simp [hE, hC, JSNum.isNaN]
      · unfold convertToInt
        simp [hE, hC, JSNum.isNaN]

/-- Witness for C2: the amended theorem applied to NaN at 8 bits with the
empty options record: the conversion succeeds with result `0`. -/
theorem c2_enforceRange_witness :
    convertToInt "x" JSNum.nan 8 {} = .ok 0 :=
  ((c2_enforceRange_characterization "x" JSNum.nan 8 {}).2 rfl).2.1 rfl

/-- Witness for C4: the universally quantified conjunct applied at the
concrete input `5` with `bitLength = 8` and the empty options record. -/
theorem c4_default_wrap_witness :
    (∃ j : ℤ, modulo (integerPart 5) (pow2 8) = integerPart 5 - (j : ℚ) * 2 ^ 8) ∧
    convertToInt "x" (JSNum.num 5) 8 {} =
      .ok (if ({} : ConvOpts).signed = true
              ∧ (2 : ℚ) ^ (8 - 1) ≤ modulo (integerPart 5) (pow2 8)
           then modulo (integerPart 5) (pow2 8) - 2 ^ 8
           else modulo (integerPart 5) (pow2 8)) :=
  c4_default_wrap.1 "x" 5 8 {} rfl rfl (by norm_num) (Or.inl rfl)

/-- C9 counterexample: on a symbol, `DOMString` raises an error whose kind
code is `ERR_INVALID_ARG_VALUE` — not `ERR_INVALID_ARG_TYPE` as the claim
states. -/
theorem c9_domstring_symbol_counterexample :
    DOMString (.symbol 0) = .error (errInvalidArgValue "value" (.symbol 0)) ∧
    (errInvalidArgValue "value" (.symbol 0)).code = "ERR_INVALID_ARG_VALUE" ∧
    (errInvalidArgValue "value" (.symbol 0)).code ≠ "ERR_INVALID_ARG_TYPE" := by
  refine ⟨rfl, rfl, ?_⟩
  show ("ERR_INVALID_ARG_VALUE" : String) ≠ "ERR_INVALID_ARG_TYPE"
  decide

/-- C9 (amended): for every symbol value, `DOMString` raises an error, and
its kind code is `ERR_INVALID_ARG_VALUE` (the source throws the
`ERR_INVALID_ARG_VALUE` class, matching spec §4.2 and §8 rather than the
type-mismatch classification of §7). -/
theorem c9_domstring_symbol_amended (id : ℕ) :
    DOMString (.symbol id) = .error (errInvalidArgValue "value" (.symbol id)) ∧
    (errInvalidArgValue "value" (.symbol id)).code = "ERR_INVALID_ARG_VALUE" :=
  ⟨rfl, rfl⟩

/-- C8: the enum converter returns the string coercion of the input when it
belongs to the value set (so `"a"` against `["a","b"]` converts to `"a"`),
and otherwise raises an error of kind `ERR_INVALID_ARG_VALUE` whose message
contains both the offending string and the enum's name. -/
theorem c8_enum_converter (name : String) (values : List String) (V : JSVal)
    (opts : ConvOpts) :
    (jsToString V ∈ values →
      createEnumConverter name values V opts = .ok (jsToString V)) ∧
    (jsToString V ∉ values →
      ∃ e, createEnumConverter name values V opts = .error e ∧
        e.code = "ERR_INVALID_ARG_VALUE" ∧
        (∃ u w, e.message = u ++ (jsToString V ++ w)) ∧
        (∃ u w, e.message = u ++ (name ++ w))) ∧
    createEnumConverter "T" ["a", "b"] (.str "a") {} = .ok "a" := by
  refine ⟨?_, ?_, rfl⟩
  · intro h
    unfold createEnumConverter
    rw [if_pos (List.elem_eq_true_of_mem h)]
  · intro h
    have hc : values.contains (jsToString V) ≠ true := fun hc =>
      h (List.mem_of_elem_eq_true hc)
    refine ⟨makeException
        ("value " ++ quoteChar ++ jsToString V ++ quoteChar ++
          " is not a valid enum value of type " ++ name ++ ".")
        { opts with code := some "ERR_INVALID_ARG_VALUE" }, ?_, ?_, ?_, ?_⟩
    · unfold createEnumConverter
      rw [if_neg hc]
    · rfl
    · refine ⟨(match opts.prefixStr with
          | some s => if s = "" then "" else s ++ ": "
          | none => "") ++
        ((match opts.context with
          | some s => if s = "" then "" else s ++ " "
          | none => "Value ") ++ ("value " ++ quoteChar)),
        quoteChar ++ " is not a valid enum value of type " ++ name ++ ".", ?_⟩
      show (makeException _ _).message = _
      unfold makeException codedTypeError
      simp only [String.append_assoc]
    · refine ⟨(match opts.prefixStr with
          | some s => if s = "" then "" else s ++ ": "
          | none => "") ++
        ((match opts.context with
          | some s => if s = "" then "" else s ++ " "
          | none => "Value ") ++
          ("value " ++ (quoteChar ++ (jsToString V ++
            (quoteChar ++ " is not a valid enum value of type "))))),
        ".", ?_⟩
      show (makeException _ _).message = _
      unfold makeException codedTypeError
      simp only [String.append_assoc]

/-- Witness for C8: the success and failure branches at concrete inputs:
`"a"` is a member of `["a","b"]` and converts to itself; `"c"` is not and
produces an invalid-value error. -/
theorem c8_enum_converter_witness :
    createEnumConverter "T" ["a", "b"] (.str "a") {} = .ok "a" ∧
    (∃ e, createEnumConverter "T" ["a", "b"] (.str "c") {} = .error e ∧
      e.code = "ERR_INVALID_ARG_VALUE" ∧
      (∃ u w, e.message = u ++ (jsToString (.str "c") ++ w)) ∧
      (∃ u w, e.message = u ++ ("T" ++ w))) :=
  ⟨(c8_enum_converter "T" ["a", "b"] (.str "a") {}).1 (by simp [jsToString]),
   (c8_enum_converter "T" ["a", "b"] (.str "c") {}).2.1 (by simp [jsToString])⟩

/-- A `next()` result other than `undefined`/`null` whose `done` is not
strictly `true` does not fail the loop at that step: its `value` read is
converted and the loop continues with it pushed. -/
lemma sequenceLoop_res_step {α : Type}
    (conv : JSVal → ConvOpts → Except CoercionError α) (opts : ConvOpts)
    (d w : JSVal) (hd : strictEqTrue d = false) (rest : List IterRes)
    (acc : List α) (r : α)
    (hr : conv w { opts with
        context := some (interpolate opts.context ++ "[" ++ toString acc.length ++ "]") }
      = .ok r) :
    sequenceLoop conv opts (IterRes.res d w :: rest) acc
      = sequenceLoop conv opts rest (acc ++ [r]) := by
  simp only [sequenceLoop, hd, Bool.false_eq_true, if_false]
  rw [hr]

/-- With a never-failing element converter, the loop carries any prefix of
well-formed yields into the accumulator and continues with the tail. -/
lemma sequenceLoop_yield_prefix {α : Type}
    (conv : JSVal → ConvOpts → Except CoercionError α) (opts : ConvOpts)
    (hconv : ∀ v o, ∃ r, conv v o = .ok r) :
    ∀ (pre : List JSVal) (tail : List IterRes) (acc : List α),
      ∃ acc2, sequenceLoop conv opts (pre.map IterRes.yield ++ tail) acc
        = sequenceLoop conv opts tail acc2 := by
  intro pre
  induction pre with
  | nil => intro tail acc; exact ⟨acc, rfl⟩
  | cons v vs ih =>
    intro tail acc
    obtain ⟨r, hr⟩ := hconv v { opts with
      context := some (interpolate opts.context ++ "[" ++ toString acc.length ++ "]") }
    obtain ⟨acc2, h2⟩ := ih tail (acc ++ [r])
    refine ⟨acc2, ?_⟩
    rw [List.map_cons, List.cons_append,
      show IterRes.yield v = IterRes.res (JSVal.bool false) v from rfl,
      sequenceLoop_res_step conv opts (JSVal.bool false) v rfl _ acc r hr]
    exact h2

/-- An `undefined` `next()` result reached after any prefix of yields fails
with the sequence error. -/
lemma sequenceLoop_undef {α : Type}
    (conv : JSVal → ConvOpts → Except CoercionError α) (opts : ConvOpts)
    (hconv : ∀ v o, ∃ r, conv v o = .ok r)
    (pre : List JSVal) (rest : List IterRes) (acc : List α) :
    sequenceLoop conv opts (pre.map IterRes.yield ++ IterRes.undefRes :: rest) acc
      = .error (makeException "can not be converted to sequence." opts) := by
  obtain ⟨acc2, h2⟩ := sequenceLoop_yield_prefix conv opts hconv pre
    (IterRes.undefRes :: rest) acc
  rw [h2]
  rfl

/-- A `null` `next()` result reached after any prefix of yields fails with
the host's property-read TypeError, not the sequence error. -/
lemma sequenceLoop_null {α : Type}
    (conv : JSVal → ConvOpts → Except CoercionError α) (opts : ConvOpts)
    (hconv : ∀ v o, ∃ r, conv v o = .ok r)
    (pre : List JSVal) (rest : List IterRes) (acc : List α) :
    sequenceLoop conv opts (pre.map IterRes.yield ++ IterRes.nullRes :: rest) acc
      = .error nullAccessTypeError := by
  obtain ⟨acc2, h2⟩ := sequenceLoop_yield_prefix conv opts hconv pre
    (IterRes.nullRes :: rest) acc
  rw [h2]
  rfl

/-- Every error `makeException` constructs carries a nonempty kind code
(`opts.code || "ERR_INVALID_ARG_TYPE"` never yields the empty string), so no
such error is the bare host TypeError. -/
lemma makeException_code_ne_empty (m : String) (opts : ConvOpts) :
    (makeException m opts).code ≠ "" := by
  unfold makeException codedTypeError
  rcases hcd : opts.code with _ | s
  · simp [hcd]
  · simp only [hcd]
    by_cases hs : s = ""
    · simp [hs]
    · simp [hs]

/-- C7 counterexample: a `next()` result that is not a well-formed
`done`/`value` object need not fail the conversion with the sequence error:
a shapeless result (e.g. the number `5`, whose `done` and `value` reads both
give `undefined`, modelled `IterRes.res JSVal.undef JSVal.undef`) is treated
as a yield of `undefined` and the conversion succeeds; and a `null` result
fails with the host's property-read TypeError, which is not the "can not be
converted to sequence." error. -/
theorem c7_malformed_next_counterexample :
    createSequenceConverter (fun v _ => Except.ok v)
        (.object (some [IterRes.res JSVal.undef JSVal.undef, IterRes.doneTrue])) {}
      = .ok [JSVal.undef] ∧
    Except.ok [JSVal.undef]
      ≠ Except.error (makeException "can not be converted to sequence." ({} : ConvOpts)) ∧
    createSequenceConverter (fun v _ => Except.ok v)
        (.object (some [IterRes.nullRes])) {}
      = .error nullAccessTypeError ∧
    nullAccessTypeError ≠ makeException "can not be converted to sequence." ({} : ConvOpts) := by
  refine ⟨?_, ?_, ?_, ?_⟩
  · unfold createSequenceConverter
    rw [if_neg (by simp [type])]
    show sequenceLoop (fun v _ => Except.ok v) {}
      [IterRes.res JSVal.undef JSVal.undef, IterRes.doneTrue] [] = _
    rw [sequenceLoop_res_step (fun v _ => Except.ok v) {} JSVal.undef JSVal.undef rfl
      [IterRes.doneTrue] [] JSVal.undef rfl]
    rfl
  · exact fun h => Except.noConfusion h
  · unfold createSequenceConverter
    rw [if_neg (by simp [type])]
    rfl
  · exact fun h => absurd (congrArg CoercionError.code h).symm
      (makeException_code_ne_empty "can not be converted to sequence." {})

/-- C7 (amended): only a `next()` step yielding no result at all
(`res === undefined`, also the case when `next` is absent or the stream is
exhausted) fails the conversion with the "can not be converted to
sequence." error — the same error used for non-Object inputs and for objects
yielding no iterator.  A `null` result fails differently, with the host's
TypeError from reading `res.done`; and any other result, however ill-shaped,
does not fail at that step: its `done` is not strictly `true`, so its
`value` read is converted as an element and iteration continues.  (Reaching
the step requires the earlier elements to convert, which totality of the
element converter expresses.) -/
theorem c7_malformed_next_error {α : Type}
    (conv : JSVal → ConvOpts → Except CoercionError α) (opts : ConvOpts)
    (hconv : ∀ v o, ∃ r, conv v o = .ok r)
    (pre : List JSVal) (rest : List IterRes) (V : JSVal)
    (hV : type V ≠ "Object") (d w : JSVal) (hd : strictEqTrue d = false)
    (acc : List α) :
    createSequenceConverter conv
        (.object (some (pre.map IterRes.yield ++ IterRes.undefRes :: rest))) opts
      = .error (makeException "can not be converted to sequence." opts) ∧
    createSequenceConverter conv V opts
      = .error (makeException "can not be converted to sequence." opts) ∧
    createSequenceConverter conv (.object none) opts
      = .error (makeException "can not be converted to sequence." opts) ∧
    createSequenceConverter conv
        (.object (some (pre.map IterRes.yield ++ IterRes.nullRes :: rest))) opts
      = .error nullAccessTypeError ∧
    nullAccessTypeError ≠ makeException "can not be converted to sequence." opts ∧
    (∃ r, conv w { opts with
        context := some (interpolate opts.context ++ "[" ++ toString acc.length ++ "]") }
          = .ok r ∧
      sequenceLoop conv opts (IterRes.res d w :: rest) acc
        = sequenceLoop conv opts rest (acc ++ [r])) := by
  refine ⟨?_, ?_, ?_, ?_, ?_, ?_⟩
  · unfold createSequenceConverter
    rw [if_neg (by simp [type])]
    exact sequenceLoop_undef conv opts hconv pre rest []
  · unfold createSequenceConverter
    rw [if_pos hV]
  · unfold createSequenceConverter
    rw [if_neg (by simp [type])]
  · unfold createSequenceConverter
    rw [if_neg (by simp [type])]
    exact sequenceLoop_null conv opts hconv pre rest []
  · exact fun h => absurd (congrArg CoercionError.code h).symm
      (makeException_code_ne_empty "can not be converted to sequence." opts)
  · obtain ⟨r, hr⟩ := hconv w { opts with
      context := some (interpolate opts.context ++ "[" ++ toString acc.length ++ "]") }
    exact ⟨r, hr, sequenceLoop_res_step conv opts d w hd rest acc r hr⟩

/-- Witness for C7: the identity element converter with the empty prefix; an
`undefined` result and a `null` result each fail with their respective
errors. -/
theorem c7_malformed_next_witness :
    createSequenceConverter (fun v _ => Except.ok v)
        (.object (some (List.map IterRes.yield [] ++ IterRes.undefRes :: []))) {}
      = .error (makeException "can not be converted to sequence." {}) ∧
    createSequenceConverter (fun v _ => Except.ok v)
        (.object (some (List.map IterRes.yield [] ++ IterRes.nullRes :: []))) {}
      = .error nullAccessTypeError :=
  ⟨(c7_malformed_next_error (fun v _ => Except.ok v) {} (fun v _ => ⟨v, rfl⟩)
      [] [] (.str "s") (by simp [type]) JSVal.undef JSVal.undef rfl []).1,
   (c7_malformed_next_error (fun v _ => Except.ok v) {} (fun v _ => ⟨v, rfl⟩)
      [] [] (.str "s") (by simp [type]) JSVal.undef JSVal.undef rfl []).2.2.2.1⟩

/-- The derived context string the sequence converter builds for the element
at index `n`. -/
def derivedContext (opts : ConvOpts) (n : ℕ) : String :=
  interpolate opts.context ++ "[" ++ toString n ++ "]"

/-- The contexts the probe converter reports for a run of `n` elements
starting at index `n₀`. -/
def probeContexts (opts : ConvOpts) : ℕ → List JSVal → List (Option String)
  | _, [] => []
  | n, _ :: tl => some (derivedContext opts n) :: probeContexts opts (n + 1) tl

lemma sequenceLoop_probe (opts : ConvOpts) :
    ∀ (vs : List JSVal) (acc : List (Option String)),
      sequenceLoop probeConverter opts (vs.map IterRes.yield ++ [IterRes.doneTrue]) acc
        = .ok (acc ++ probeContexts opts acc.length vs) := by
  intro vs
  induction vs with
  | nil => intro acc; simp [sequenceLoop, probeContexts, IterRes.doneTrue, strictEqTrue]
  | cons v tl ih =>
    intro acc
    rw [List.map_cons, List.cons_append,
      show IterRes.yield v = IterRes.res (JSVal.bool false) v from rfl,
      sequenceLoop_res_step probeConverter opts (JSVal.bool false) v rfl _ acc
        (some (interpolate opts.context ++ "[" ++ toString acc.length ++ "]")) rfl,
      ih (acc ++ [some (interpolate opts.context ++ "[" ++ toString acc.length ++ "]")])]
    rw [List.length_append]
    simp only [List.length_singleton, List.append_assoc, List.singleton_append]
    rfl

lemma probeContexts_eq_range_map (opts : ConvOpts) :
    ∀ (vs : List JSVal) (n : ℕ),
      probeContexts opts n vs
        = (List.range vs.length).map fun j => some (derivedContext opts (n + j)) := by
  intro vs
  induction vs with
  | nil => intro n; simp [probeContexts]
  | cons v tl ih =>
    intro n
    rw [List.length_cons, List.range_succ_eq_map, List.map_cons, List.map_map]
    show some (derivedContext opts n) :: probeContexts opts (n + 1) tl = _
    congr 1
    rw [ih (n + 1)]
    congr 1
    funext j
    show some (derivedContext opts (n + 1 + j)) = some (derivedContext opts (n + (j + 1)))
    congr 2
    omega

/-- C10: when the caller's options record has no `context` field, the derived
options handed to the element converter for the element at index `i` carry
the context `"undefined[i]"` — the absent field is interpolated as the string
"undefined", not defaulted to "Value" — observed here by a probe converter
that reports the context it receives. -/
theorem c10_sequence_context_undefined (opts : ConvOpts)
    (h : opts.context = none) (vs : List JSVal) :
    createSequenceConverter probeConverter
        (.object (some (vs.map IterRes.yield ++ [IterRes.doneTrue]))) opts
      = .ok ((List.range vs.length).map fun i =>
          some ("undefined[" ++ toString i ++ "]")) := by
  unfold createSequenceConverter
  rw [if_neg (by simp [type])]
  show sequenceLoop probeConverter opts (vs.map IterRes.yield ++ [IterRes.doneTrue]) [] = _
  rw [sequenceLoop_probe opts vs []]
  rw [List.nil_append, List.length_nil, probeContexts_eq_range_map opts vs 0]
  have hfun : (fun j => some (derivedContext opts (0 + j)))
      = fun i => some ("undefined[" ++ toString i ++ "]") := by
    funext j
    unfold derivedContext
    rw [h, Nat.zero_add]
    rfl
  rw [hfun]

/-- Witness for C10: a two-element run with the empty options record reports
the contexts `"undefined[0]"` and `"undefined[1]"`. -/
theorem c10_sequence_context_witness :
    createSequenceConverter probeConverter
        (.object (some ((List.map IterRes.yield [JSVal.null, JSVal.null]) ++
          [IterRes.doneTrue]))) {}
      = .ok ((List.range (List.length [JSVal.null, JSVal.null])).map fun i =>
          some ("undefined[" ++ toString i ++ "]")) :=
  c10_sequence_context_undefined {} rfl [JSVal.null, JSVal.null]

section IdempotenceLemmas

/-- For the bit lengths `convertToInt` is used with, the bounds are integers
surrounding zero. -/
lemma bounds_int (b : ℕ) (s : Bool) (hb : b = 8 ∨ b = 16 ∨ b = 32 ∨ b = 64) :
    ∃ lbz ubz : ℤ, lowerBound b s = (lbz : ℚ) ∧ upperBound b s = (ubz : ℚ) ∧
      lbz ≤ 0 ∧ 0 ≤ ubz := by
  have h2 : ∀ e : ℕ, (0 : ℤ) < 2 ^ e := fun e => pow_pos (by norm_num) e
  rcases eq_or_ne b 64 with rfl | h64
  · cases s
    · exact ⟨0, 9007199254740991, by norm_num [lowerBound],
        by norm_num [upperBound, numberMaxSafeInteger], by norm_num, by norm_num⟩
    · exact ⟨-9007199254740991, 9007199254740991,
        by norm_num [lowerBound, numberMinSafeInteger],
        by norm_num [upperBound, numberMaxSafeInteger], by norm_num, by norm_num⟩
  · have hble : b ≤ 64 := by rcases hb with rfl | rfl | rfl | rfl <;> norm_num
    have hp : pow2 b = 2 ^ b := pow2_eq_two_pow b hble
    have hp1 : pow2 (b - 1) = (2 : ℚ) ^ (b - 1) := pow2_eq_two_pow _ (by omega)
    cases s
    · refine ⟨0, 2 ^ b - 1, ?_, ?_, by norm_num, by have := h2 b; omega⟩
      · simp [lowerBound, h64]
      · simp only [upperBound, if_neg h64, Bool.not_false, if_pos rfl, hp]
        push_cast
        ring
    · refine ⟨-(2 ^ (b - 1)), 2 ^ (b - 1) - 1, ?_, ?_,
        by have := h2 (b - 1); omega, by have := h2 (b - 1); omega⟩
      · simp only [lowerBound, if_neg h64, Bool.not_true, Bool.false_eq_true, if_false, hp1]
        push_cast
        ring
      · simp only [upperBound, if_neg h64, Bool.not_true, Bool.false_eq_true, if_false, hp1]
        push_cast
        ring

/-- The `clamp` path of `convertToInt`, as an equation. -/
lemma convertToInt_clamp_eq (name : String) (v : JSNum) (b : ℕ) (o : ConvOpts)
    (hE : o.enforceRange = false) (hC : o.clamp = true) (hv : v.isNaN = false) :
    convertToInt name v b o
      = .ok (evenRound (clampToBounds v (lowerBound b o.signed) (upperBound b o.signed))) := by
  unfold convertToInt
  simp only [hE, Bool.false_eq_true, if_false]
  rw [if_pos ⟨hC, by simp [hv]⟩]

/-- Step 8 of `convertToInt`, as an equation. -/
lemma convertToInt_step8 (name : String) (v : JSNum) (b : ℕ) (o : ConvOpts)
    (hE : o.enforceRange = false)
    (hcnd : ¬(o.clamp = true ∧ ¬v.isNaN = true))
    (hv : v.isNaN = true ∨ v = JSNum.num 0 ∨ v = JSNum.posInf ∨ v = JSNum.negInf) :
    convertToInt name v b o = .ok 0 := by
  unfold convertToInt
  simp only [hE, Bool.false_eq_true, if_false]
  rw [if_neg hcnd, if_pos hv]

/-- The default (wrap) path of `convertToInt`, as an equation. -/
lemma convertToInt_default_eq (name : String) (q : ℚ) (b : ℕ) (o : ConvOpts)
    (hE : o.enforceRange = false) (hC : o.clamp = false) (hq : q ≠ 0) :
    convertToInt name (JSNum.num q) b o
      = if o.signed = true ∧ pow2 (b - 1) ≤ modulo (integerPart q) (pow2 b)
        then .ok (modulo (integerPart q) (pow2 b) - pow2 b)
        else .ok (modulo (integerPart q) (pow2 b)) := by
  unfold convertToInt
  simp only [hE, hC, Bool.false_eq_true, if_false, false_and, JSNum.isNaN]
  rw [if_neg (by simp [hq])]

/-- The clamped value stays between integer bounds surrounding zero. -/
lemma clampToBounds_mem (x : JSNum) (lb ub : ℚ) (h0 : lb ≤ 0) (h1 : 0 ≤ ub) :
    lb ≤ clampToBounds x lb ub ∧ clampToBounds x lb ub ≤ ub := by
  have hle : lb ≤ ub := le_trans h0 h1
  cases x with
  | nan => exact ⟨h0, h1⟩
  | posInf => exact ⟨hle, le_refl _⟩
  | negInf =>
    show lb ≤ min lb ub ∧ min lb ub ≤ ub
    rw [min_eq_left hle]
    exact ⟨le_refl _, hle⟩
  | num q =>
    constructor
    · exact le_min (le_max_right q lb) hle
    · exact min_le_right _ _

/-- Converting the number `0` again yields `0` on every non-`enforceRange`
configuration. -/
lemma convertToInt_zero_fix (name : String) (b : ℕ) (o : ConvOpts) (lbz ubz : ℤ)
    (hE : o.enforceRange = false)
    (hlb : lowerBound b o.signed = (lbz : ℚ)) (hub : upperBound b o.signed = (ubz : ℚ))
    (hlbz : lbz ≤ 0) (hubz : 0 ≤ ubz) :
    convertToInt name (JSNum.num 0) b o = .ok 0 := by
  by_cases hC : o.clamp = true
  · rw [convertToInt_clamp_eq name (JSNum.num 0) b o hE hC rfl]
    have hcl : clampToBounds (JSNum.num 0) (lowerBound b o.signed) (upperBound b o.signed)
        = 0 := by
      show min (max 0 (lowerBound b o.signed)) (upperBound b o.signed) = 0
      rw [max_eq_left (by rw [hlb]; exact_mod_cast hlbz),
        min_eq_left (by rw [hub]; exact_mod_cast hubz)]
    rw [hcl, show evenRound 0 = 0 from by simpa using evenRound_intCast 0]
  · exact convertToInt_step8 name (JSNum.num 0) b o hE
      (fun hcnd => hC hcnd.1) (Or.inr (Or.inl rfl))

/-- A nonzero integer of magnitude below `2^bitLength`, below `2^(bitLength-1)`
when signed, is a fixed point of the default (wrap) path. -/
lemma convertToInt_small_int_fix (name : String) (b : ℕ) (o : ConvOpts) (k : ℤ)
    (hE : o.enforceRange = false) (hC : o.clamp = false) (hk : (k : ℚ) ≠ 0)
    (habs : |(k : ℚ)| < 2 ^ b) (hp : pow2 b = 2 ^ b)
    (hp1 : pow2 (b - 1) = (2 : ℚ) ^ (b - 1))
    (hs : o.signed = true → (k : ℚ) < 2 ^ (b - 1)) :
    convertToInt name (JSNum.num (k : ℚ)) b o = .ok (k : ℚ) := by
  rw [convertToInt_default_eq name (k : ℚ) b o hE hC hk]
  have hm : modulo (integerPart (k : ℚ)) (pow2 b) = (k : ℚ) := by
    rw [integerPart_intCast, modulo_eq_jsRem, hp]
    exact jsRem_small (by positivity) habs
  rw [hm, hp1, if_neg]
  rintro ⟨hsig, hge⟩
  exact absurd hge (not_le.2 (hs hsig))

/-- An integer between the bounds is a fixed point of the clamp path. -/
lemma convertToInt_clamp_int_fix (name : String) (b : ℕ) (o : ConvOpts)
    (lbz ubz k : ℤ) (hE : o.enforceRange = false) (hC : o.clamp = true)
    (hlb : lowerBound b o.signed = (lbz : ℚ)) (hub : upperBound b o.signed = (ubz : ℚ))
    (h1 : lbz ≤ k) (h2 : k ≤ ubz) :
    convertToInt name (JSNum.num (k : ℚ)) b o = .ok (k : ℚ) := by
  rw [convertToInt_clamp_eq name (JSNum.num (k : ℚ)) b o hE hC rfl]
  have hcl : clampToBounds (JSNum.num (k : ℚ)) (lowerBound b o.signed)
      (upperBound b o.signed) = (k : ℚ) := by
    show min (max (k : ℚ) (lowerBound b o.signed)) (upperBound b o.signed) = (k : ℚ)
    rw [max_eq_left (by rw [hlb]; exact_mod_cast h1),
      min_eq_left (by rw [hub]; exact_mod_cast h2)]
  rw [hcl, evenRound_intCast]

/-- An integer between the bounds is a fixed point of the `enforceRange`
path. -/
lemma convertToInt_enforce_int_fix (name : String) (b : ℕ) (o : ConvOpts) (k : ℤ)
    (hE : o.enforceRange = true)
    (h1 : lowerBound b o.signed ≤ (k : ℚ)) (h2 : (k : ℚ) ≤ upperBound b o.signed) :
    convertToInt name (JSNum.num (k : ℚ)) b o = .ok (k : ℚ) := by
  rw [convertToInt_enforce_num name (k : ℚ) b o hE, jsTrunc_intCast,
    if_neg (by push_neg; exact ⟨h1, h2⟩)]

/-- A successful clamp conversion produces a fixed point: the result is an
integer inside the bounds, so converting it again returns it unchanged. -/
lemma convertToInt_clamp_second (name : String) (v : JSNum) (b : ℕ) (o : ConvOpts)
    (lbz ubz : ℤ) (r : ℚ) (hE : o.enforceRange = false) (hC : o.clamp = true)
    (hlb : lowerBound b o.signed = (lbz : ℚ)) (hub : upperBound b o.signed = (ubz : ℚ))
    (hlbz : lbz ≤ 0) (hubz : 0 ≤ ubz) (hv : v.isNaN = false)
    (h : convertToInt name v b o = .ok r) :
    convertToInt name (JSNum.num r) b o = .ok r := by
  rw [convertToInt_clamp_eq name v b o hE hC hv] at h
  simp only [Except.ok.injEq] at h
  subst h
  obtain ⟨hcl, hcu⟩ := clampToBounds_mem v (lowerBound b o.signed) (upperBound b o.signed)
    (by rw [hlb]; exact_mod_cast hlbz) (by rw [hub]; exact_mod_cast hubz)
  obtain ⟨k, hk⟩ := evenRound_isInt
    (clampToBounds v (lowerBound b o.signed) (upperBound b o.signed))
  have hmem := @evenRound_mem
    (clampToBounds v (lowerBound b o.signed) (upperBound b o.signed))
    lbz ubz hlbz hubz (hlb ▸ hcl) (hub ▸ hcu)
  rw [hk] at hmem ⊢
  exact convertToInt_clamp_int_fix name b o lbz ubz k hE hC hlb hub
    (by exact_mod_cast hmem.1) (by exact_mod_cast hmem.2)

end IdempotenceLemmas

/-- C5: `convertToInt` is idempotent: whenever a conversion at one of the
used bit lengths succeeds, feeding the result back through `convertToInt`
with the same name, bit length and options returns the same result. -/
theorem c5_convertToInt_idempotent (name : String) (v : JSNum) (b : ℕ) (o : ConvOpts)
    (r : ℚ) (hb : b = 8 ∨ b = 16 ∨ b = 32 ∨ b = 64)
    (h : convertToInt name v b o = .ok r) :
    convertToInt name (JSNum.num r) b o = .ok r := by
  obtain ⟨lbz, ubz, hlb, hub, hlbz, hubz⟩ := bounds_int b o.signed hb
  have hble : b ≤ 64 := by rcases hb with rfl | rfl | rfl | rfl <;> norm_num
  have hb1 : 1 ≤ b := by rcases hb with rfl | rfl | rfl | rfl <;> norm_num
  have hp : pow2 b = 2 ^ b := pow2_eq_two_pow b hble
  have hp1 : pow2 (b - 1) = (2 : ℚ) ^ (b - 1) := pow2_eq_two_pow _ (by omega)
  have hpow2 : (2 : ℚ) ^ b = 2 * 2 ^ (b - 1) := by
    have hbeq : b - 1 + 1 = b := by omega
    calc (2 : ℚ) ^ b = 2 ^ (b - 1 + 1) := by rw [hbeq]
      _ = 2 ^ (b - 1) * 2 := pow_succ 2 (b - 1)
      _ = 2 * 2 ^ (b - 1) := by ring
  have hpbpos : (0 : ℚ) < 2 ^ b := by positivity
  have hpb1pos : (0 : ℚ) < 2 ^ (b - 1) := by positivity
  by_cases hE : o.enforceRange = true
  · -- enforceRange: the first call must have returned an in-bounds truncation
    rcases v with _ | _ | _ | q
    · exact absurd h (by unfold convertToInt; simp [hE, JSNum.isNaN])
    · exact absurd h (by unfold convertToInt; simp [hE, JSNum.isNaN])
    · exact absurd h (by unfold convertToInt; simp [hE, JSNum.isNaN])
    · rw [convertToInt_enforce_num name q b o hE] at h
      by_cases hin : (jsTrunc q : ℚ) < lowerBound b o.signed ∨
          (jsTrunc q : ℚ) > upperBound b o.signed
      · rw [if_pos hin] at h
        exact absurd h (by simp)
      · rw [if_neg hin] at h
        push_neg at hin
        simp only [Except.ok.injEq] at h
        subst h
        exact convertToInt_enforce_int_fix name b o (jsTrunc q) hE
          (not_lt.1 (not_lt.2 hin.1)) (not_lt.1 (not_lt.2 hin.2))
  · have hE' : o.enforceRange = false := by simpa using hE
    have hzfix : r = 0 → convertToInt name (JSNum.num r) b o = .ok r := by
      rintro rfl
      exact convertToInt_zero_fix name b o lbz ubz hE' hlb hub hlbz hubz
    by_cases hC : o.clamp = true
    · -- clamp: NaN falls through to step 8, everything else is clamped
      rcases v with _ | _ | _ | q
      · rw [convertToInt_step8 name .nan b o hE' (fun hcnd => hcnd.2 rfl) (Or.inl rfl)] at h
        simp only [Except.ok.injEq] at h
        exact hzfix h.symm
      · exact convertToInt_clamp_second name .posInf b o lbz ubz r hE' hC hlb hub
          hlbz hubz rfl h
      · exact convertToInt_clamp_second name .negInf b o lbz ubz r hE' hC hlb hub
          hlbz hubz rfl h
      · exact convertToInt_clamp_second name (.num q) b o lbz ubz r hE' hC hlb hub
          hlbz hubz rfl h
    · have hC' : o.clamp = false := by simpa using hC
      have hstep8 : ∀ w : JSNum, w.isNaN = true ∨ w = JSNum.num 0 ∨ w = JSNum.posInf ∨
          w = JSNum.negInf → convertToInt name w b o = .ok 0 := fun w hw =>
        convertToInt_step8 name w b o hE' (fun hcnd => hC hcnd.1) hw
      rcases v with _ | _ | _ | q
      · rw [hstep8 .nan (Or.inl rfl)] at h
        simp only [Except.ok.injEq] at h
        exact hzfix h.symm
      · rw [hstep8 .posInf (Or.inr (Or.inr (Or.inl rfl)))] at h
        simp only [Except.ok.injEq] at h
        exact hzfix h.symm
      · rw [hstep8 .negInf (Or.inr (Or.inr (Or.inr rfl)))] at h
        simp only [Except.ok.injEq] at h
        exact hzfix h.symm
      · by_cases hq : q = 0
        · subst hq
          rw [hstep8 (JSNum.num 0) (Or.inr (Or.inl rfl))] at h
          simp only [Except.ok.injEq] at h
          exact hzfix h.symm
        · -- default wrap path
          rw [convertToInt_default_eq name q b o hE' hC' hq] at h
          obtain ⟨km, hkm⟩ : ∃ m : ℤ, modulo (integerPart q) (pow2 b) = (m : ℚ) := by
            rw [modulo_eq_jsRem, hp]
            unfold integerPart
            exact jsRem_int_int (jsTrunc q) ((2 : ℚ) ^ b) ⟨2 ^ b, by push_cast; ring⟩
          have habs : |(km : ℚ)| < 2 ^ b := by
            rw [← hkm, modulo_eq_jsRem, hp]
            exact abs_jsRem_lt hpbpos
          split at h
          · next hcnd =>
            -- signed wrap: r = m - 2^b lies in [-2^(b-1), 0)
            obtain ⟨hsig, hge⟩ := hcnd
            rw [hp1] at hge
            rw [hkm] at hge
            simp only [Except.ok.injEq] at h
            have hr : r = ((km - 2 ^ b : ℤ) : ℚ) := by
              rw [← h, hkm, hp]
              push_cast
              ring
            have hkmlt : (km : ℚ) < 2 ^ b := lt_of_abs_lt habs
            have hrneg : ((km - 2 ^ b : ℤ) : ℚ) < 0 := by push_cast; linarith
            rw [hr]
            apply convertToInt_small_int_fix name b o (km - 2 ^ b) hE' hC'
              (ne_of_lt hrneg) ?_ hp hp1 (fun _ => lt_trans hrneg hpb1pos)
            rw [abs_of_neg hrneg]
            push_cast
            linarith
          · next hcnd =>
            push_neg at hcnd
            simp only [Except.ok.injEq] at h
            by_cases hm0 : km = 0
            · apply hzfix
              rw [← h, hkm, hm0]
              norm_num
            · have hs : o.signed = true → (km : ℚ) < 2 ^ (b - 1) := by
                intro hsig
                have := hcnd hsig
                rw [hp1, hkm] at this
                exact this
              rw [← h, hkm]
              exact convertToInt_small_int_fix name b o km hE' hC'
                (by exact_mod_cast hm0) habs hp hp1 hs

/-- Witness for C5: converting `300` at 8 bits wraps to `44`, and converting
`44` again returns `44`. -/
theorem c5_convertToInt_idempotent_witness :
    convertToInt "x" (JSNum.num 44) 8 {} = .ok 44 := by
  apply c5_convertToInt_idempotent "x" (JSNum.num 300) 8 {} 44 (Or.inl rfl)
  rw [convertToInt_default_eq "x" 300 8 {} rfl rfl (by norm_num)]
  have hip : integerPart (300 : ℚ) = ((300 : ℤ) : ℚ) := by
    simpa using integerPart_intCast 300
  have hm : modulo (integerPart (300 : ℚ)) (pow2 8) = 44 := by
    rw [hip, pow2_eight, modulo_eq_jsRem]
    unfold jsRem
    have ht : jsTrunc (((300 : ℤ) : ℚ) / 256) = 1 := by
      apply jsTrunc_eq_of_nonneg
      · positivity
      · push_cast
        norm_num
      · push_cast
        norm_num
    unfold integerPart
    rw [ht]
    push_cast
    norm_num
  rw [hm, if_neg]
  rintro ⟨hsig, _⟩
  exact Bool.noConfusion hsig

end Webidl
